import Mathlib

/-!
Shallow embedding of `src/js/email-chooser.js` (WestTechHA Email Chooser).

The file embeds, faithfully to the JavaScript source:
  * `parseMailto` (lines 50-77), including models of the browser primitives it
    calls: `String.prototype.trim`, `String.prototype.toLowerCase` (restricted
    to ASCII, which is all the `mailto:` scheme check can observe),
    `decodeURIComponent` (the strict, throwing ECMA-262 Decode algorithm,
    modelled as an `Option`), and `URLSearchParams` over a query string
    (the WHATWG `application/x-www-form-urlencoded` parser: split on `&`,
    drop empty pieces, split each piece at the first `=`, turn `+` into a
    space, lenient percent-decoding, UTF-8 decoding with replacement).
  * `enc` / `buildLinks` (lines 46-48, 96-122) as the three pure URL builders
    `gmailUrl`, `outlookUrl`, `mailtoUrl` plus a record update on the modal.
  * the modal state machine `ensureModal` / `openModal` / `closeModal`
    (lines 17-44, 124-143) over a minimal DOM state: an optional modal
    element carrying the open flag, the aria-hidden attribute, the three
    link targets and the displayed recipient text.

`parseMailto` returns `Except Unit EmailRequest`: `.error ()` models the JS
function propagating an exception to its caller (which the source can do,
because the `decodeURIComponent` call on the address part at line 64 is not
inside the `try` block that guards the query parsing).
-/

namespace EmailChooser

/-- Whitespace recognized by JS `String.prototype.trim` (ECMA-262
TrimString: WhiteSpace, i.e. TAB VT FF SP NBSP ZWNBSP and the Unicode Zs
space separators, together with the LineTerminators LF CR LS PS). -/
def jsWhitespaceChar (c : Char) : Bool :=
  c = ' ' || c = '\t' || c = '\n' || c = '\r' ||
  c.toNat = 0x0B || c.toNat = 0x0C || c.toNat = 0xA0 || c.toNat = 0xFEFF ||
  c.toNat = 0x1680 || (0x2000 ≤ c.toNat && c.toNat ≤ 0x200A) ||
  c.toNat = 0x202F || c.toNat = 0x205F || c.toNat = 0x3000 ||
  c.toNat = 0x2028 || c.toNat = 0x2029

/-- Model of JS `String.prototype.trim`. -/
def jsTrim (s : String) : String :=
  String.mk (((s.data.dropWhile jsWhitespaceChar).reverse.dropWhile jsWhitespaceChar).reverse)

/-- ASCII lowercasing; JS `toLowerCase` is full Unicode, but no character
outside A-Z can lower-case onto a character of `"mailto:"`, so this model is
observationally equivalent for the scheme check in the source. -/
def lowerAscii (c : Char) : Char :=
  if 'A' ≤ c && c ≤ 'Z' then Char.ofNat (c.toNat + 32) else c

/-- DEFAULT_TO from line 15 of the source. -/
def DEFAULT_TO : String := "support@WestTechHA.com"

/-- Numeric value of a hexadecimal digit, if any. -/
def hexVal (c : Char) : Option Nat :=
  if '0' ≤ c && c ≤ '9' then some (c.toNat - 48)
  else if 'A' ≤ c && c ≤ 'F' then some (c.toNat - 55)
  else if 'a' ≤ c && c ≤ 'f' then some (c.toNat - 87)
  else none

/-- UTF-8 encoding of a character, as byte values. -/
def utf8Bytes (c : Char) : List Nat :=
  let n := c.toNat
  if n < 0x80 then [n]
  else if n < 0x800 then [0xC0 + n / 64, 0x80 + n % 64]
  else if n < 0x10000 then [0xE0 + n / 4096, 0x80 + n / 64 % 64, 0x80 + n % 64]
  else [0xF0 + n / 262144, 0x80 + n / 4096 % 64, 0x80 + n / 64 % 64, 0x80 + n % 64]

/-- Characters JS `encodeURIComponent` leaves unescaped:
alphanumerics and `- _ . ! ~ * ' ( )` (39 is the apostrophe). -/
def encUnreservedChar (c : Char) : Bool :=
  c.isAlphanum || c = '-' || c = '_' || c = '.' || c = '!' || c = '~' ||
  c = '*' || c.toNat = 39 || c = '(' || c = ')'

/-- Upper-case hexadecimal digit for a value below 16. -/
def hexDigitUpper (n : Nat) : Char :=
  if n < 10 then Char.ofNat (48 + n) else Char.ofNat (55 + n)

/-- Percent-escape of one byte, `%HH` with upper-case hex. -/
def percentByte (b : Nat) : List Char :=
  ['%', hexDigitUpper (b / 16), hexDigitUpper (b % 16)]

/-- Character-list worker for `encodeURIComponent`. -/
def encodeURIComponentChars : List Char → List Char
  | [] => []
  | c :: rest =>
      (if encUnreservedChar c then [c] else ((utf8Bytes c).map percentByte).flatten)
        ++ encodeURIComponentChars rest

/-- Model of JS `encodeURIComponent`. (On Lean strings it is total: the only
JS failure case, a lone surrogate, cannot occur in a `String`.) -/
def encodeURIComponent (s : String) : String :=
  String.mk (encodeURIComponentChars s.data)

/-- The source's `enc` helper (line 46): `encodeURIComponent(v || '')`;
on genuine strings the `|| ''` is the identity. -/
def enc (v : String) : String := encodeURIComponent v

/-- First pass of ECMA-262 `Decode`: each `%HH` escape becomes a byte
(`Sum.inr`), anything else stays a literal character (`Sum.inl`); a `%` not
followed by two hex digits is a `URIError`, i.e. `none`. -/
def percentTokens : List Char → Option (List (Char ⊕ Nat))
  | [] => some []
  | '%' :: a :: b :: rest =>
      match hexVal a, hexVal b with
      | some ha, some hb => (percentTokens rest).map (fun ts => Sum.inr (16 * ha + hb) :: ts)
      | _, _ => none
  | '%' :: _ => none
  | c :: rest => (percentTokens rest).map (fun ts => Sum.inl c :: ts)

/-- UTF-8 continuation byte test. -/
def contByte (b : Nat) : Bool := 0x80 ≤ b && b ≤ 0xBF

/-- One step of the second pass of ECMA-262 `Decode`, for an escape byte:
consume the whole UTF-8 sequence it starts (whose continuation bytes must
themselves come from escapes), failing on any malformed, overlong,
surrogate or out-of-range sequence; any violation is a `URIError`,
i.e. `none`. -/
def decodeTokensStep (b : Nat) (rest : List (Char ⊕ Nat)) :
    Option (Char × List (Char ⊕ Nat)) :=
  if b < 0x80 then some (Char.ofNat b, rest)
  else if b < 0xC0 then none
  else if b < 0xE0 then
    match rest with
    | Sum.inr b1 :: rest' =>
        let cp := (b - 0xC0) * 64 + (b1 - 0x80)
        if contByte b1 && decide (0x80 ≤ cp) then some (Char.ofNat cp, rest')
        else none
    | _ => none
  else if b < 0xF0 then
    match rest with
    | Sum.inr b1 :: Sum.inr b2 :: rest' =>
        let cp := (b - 0xE0) * 4096 + (b1 - 0x80) * 64 + (b2 - 0x80)
        if contByte b1 && contByte b2 && decide (0x800 ≤ cp) &&
            !(decide (0xD800 ≤ cp) && decide (cp ≤ 0xDFFF)) then
          some (Char.ofNat cp, rest')
        else none
    | _ => none
  else if b < 0xF8 then
    match rest with
    | Sum.inr b1 :: Sum.inr b2 :: Sum.inr b3 :: rest' =>
        let cp := (b - 0xF0) * 262144 + (b1 - 0x80) * 4096 + (b2 - 0x80) * 64 + (b3 - 0x80)
        if contByte b1 && contByte b2 && contByte b3 &&
            decide (0x10000 ≤ cp) && decide (cp ≤ 0x10FFFF) then
          some (Char.ofNat cp, rest')
        else none
    | _ => none
  else none

/-- Fuel-indexed worker for the second pass of ECMA-262 `Decode`; the fuel
is always at least the length of the token list, so the `0, _ :: _` case
is unreachable. -/
def decodeTokensAux : Nat → List (Char ⊕ Nat) → Option (List Char)
  | _, [] => some []
  | 0, _ :: _ => none
  | fuel + 1, Sum.inl c :: rest => (decodeTokensAux fuel rest).map (fun cs => c :: cs)
  | fuel + 1, Sum.inr b :: rest =>
      match decodeTokensStep b rest with
      | none => none
      | some (c, rest') => (decodeTokensAux fuel rest').map (fun cs => c :: cs)

/-- Second pass of ECMA-262 `Decode`: iterate `decodeTokensStep` over every
escape byte. -/
def decodeTokens (ts : List (Char ⊕ Nat)) : Option (List Char) :=
  decodeTokensAux ts.length ts

/-- Model of JS `decodeURIComponent`; `none` models the thrown `URIError`. -/
def decodeURIComponent (s : String) : Option String :=
  match percentTokens s.data with
  | none => none
  | some ts =>
      match decodeTokens ts with
      | none => none
      | some cs => some (String.mk cs)

/-- Unicode replacement character U+FFFD. -/
def replacementChar : Char := Char.ofNat 0xFFFD

/-- Admissible range for the byte after a UTF-8 lead byte, per the WHATWG
UTF-8 decoder: the lead bytes E0, ED, F0 and F4 narrow the range of their
first continuation byte (excluding overlong forms, surrogates and code
points above U+10FFFF); every other continuation byte is a plain 80-BF. -/
def utf8InBounds (b b1 : Nat) : Bool :=
  if b = 0xE0 then 0xA0 ≤ b1 && b1 ≤ 0xBF
  else if b = 0xED then 0x80 ≤ b1 && b1 ≤ 0x9F
  else if b = 0xF0 then 0x90 ≤ b1 && b1 ≤ 0xBF
  else if b = 0xF4 then 0x80 ≤ b1 && b1 ≤ 0x8F
  else contByte b1

/-- One step of the WHATWG UTF-8 decoder with replacement, as used by
`URLSearchParams` value decoding: given a lead byte and the remaining
bytes, produce the decoded character and the bytes left over. On an
invalid lead byte, U+FFFD consuming only that byte; on a byte outside its
admissible range (or end of input) inside a sequence, U+FFFD consuming the
valid prefix and reconsuming the offending byte (maximal subpart). -/
def utf8Step (b : Nat) (rest : List Nat) : Char × List Nat :=
  if b < 0x80 then (Char.ofNat b, rest)
  else if b < 0xC2 then (replacementChar, rest)
  else if b < 0xE0 then
    match rest with
    | b1 :: rest1 =>
        if contByte b1 then (Char.ofNat ((b - 0xC0) * 64 + (b1 - 0x80)), rest1)
        else (replacementChar, b1 :: rest1)
    | [] => (replacementChar, [])
  else if b < 0xF0 then
    match rest with
    | b1 :: rest1 =>
        if utf8InBounds b b1 then
          match rest1 with
          | b2 :: rest2 =>
              if contByte b2 then
                (Char.ofNat ((b - 0xE0) * 4096 + (b1 - 0x80) * 64 + (b2 - 0x80)), rest2)
              else (replacementChar, b2 :: rest2)
          | [] => (replacementChar, [])
        else (replacementChar, b1 :: rest1)
    | [] => (replacementChar, [])
  else if b < 0xF5 then
    match rest with
    | b1 :: rest1 =>
        if utf8InBounds b b1 then
          match rest1 with
          | b2 :: rest2 =>
              if contByte b2 then
                match rest2 with
                | b3 :: rest3 =>
                    if contByte b3 then
                      (Char.ofNat ((b - 0xF0) * 262144 + (b1 - 0x80) * 4096 +
                        (b2 - 0x80) * 64 + (b3 - 0x80)), rest3)
                    else (replacementChar, b3 :: rest3)
                | [] => (replacementChar, [])
              else (replacementChar, b2 :: rest2)
          | [] => (replacementChar, [])
        else (replacementChar, b1 :: rest1)
    | [] => (replacementChar, [])
  else (replacementChar, rest)

/-- Fuel-indexed worker for UTF-8 decoding with replacement; the fuel is
always at least the length of the byte list, so the `0, _ :: _` case is
unreachable. -/
def utf8DecodeReplaceAux : Nat → List Nat → List Char
  | _, [] => []
  | 0, _ :: _ => []
  | fuel + 1, b :: rest =>
      (utf8Step b rest).1 :: utf8DecodeReplaceAux fuel (utf8Step b rest).2

/-- UTF-8 decoding with replacement: iterate `utf8Step` until the bytes run
out. -/
def utf8DecodeReplace (l : List Nat) : List Char := utf8DecodeReplaceAux l.length l

/-- Byte sequence of one urlencoded name or value: `+` is a space, a valid
`%HH` escape is its byte, a stray `%` stays literal, everything else is
its UTF-8 bytes. -/
def formBytes : List Char → List Nat
  | [] => []
  | '+' :: rest => 0x20 :: formBytes rest
  | '%' :: a :: b :: rest =>
      match hexVal a, hexVal b with
      | some ha, some hb => (16 * ha + hb) :: formBytes rest
      | _, _ => 0x25 :: formBytes (a :: b :: rest)
  | '%' :: rest => 0x25 :: formBytes rest
  | c :: rest => utf8Bytes c ++ formBytes rest

/-- Lenient decoding of one urlencoded name or value (never fails). -/
def formDecode (l : List Char) : String :=
  String.mk (utf8DecodeReplace (formBytes l))

/-- Splits a character list on a separator; always returns at least one
(possibly empty) piece. -/
def splitOnChar (sep : Char) : List Char → List (List Char)
  | [] => [[]]
  | c :: rest =>
      match splitOnChar sep rest with
      | [] => [[]]
      | h :: t => if c = sep then [] :: h :: t else (c :: h) :: t

/-- Name/value split of one urlencoded piece: the name is everything before
the first `=`, the value everything after it (empty if there is no `=`). -/
def parsePair (piece : List Char) : String × String :=
  (formDecode (piece.takeWhile (fun c => c != '=')),
   formDecode ((piece.dropWhile (fun c => c != '=')).drop 1))

/-- The `URLSearchParams` constructor strips a single leading `?` from a
string argument. -/
def stripLeadingQuestion (q : List Char) : List Char :=
  match q with
  | '?' :: t => t
  | _ => q

/-- Model of `new URLSearchParams(q)` on a string argument: a single leading
`?` is stripped, then the WHATWG urlencoded parse. This never throws, so the
`try`/`catch` of lines 67-73 of the source has no effect to model. -/
def parseUrlencoded (q : List Char) : List (String × String) :=
  ((splitOnChar '&' (stripLeadingQuestion q)).filter (fun piece => !piece.isEmpty)).map parsePair

/-- Model of `URLSearchParams.get`: value of the first pair with the given
name, or null. -/
def getParam (ps : List (String × String)) (k : String) : Option String :=
  (ps.find? (fun p => p.1 == k)).map (fun p => p.2)

/-- JS `x || y` for a nullable string `x`: null and the empty string are
falsy. -/
def jsOrO (a b : Option String) : Option String :=
  match a with
  | some s => if s = "" then b else some s
  | none => b

/-- JS `x || ''` collapsed onto a plain string result. -/
def jsOrD (a : Option String) : String := a.getD ""

/-- The record built by `parseMailto` (the source's `out` object). -/
structure EmailRequest where
  toAddr : String
  subject : String
  body : String
deriving DecidableEq, Repr

/-- Line 56 of the source: `raw.toLowerCase().startsWith('mailto:')` with
`raw = href.trim()`. -/
def hasMailtoScheme (href : String) : Bool :=
  List.isPrefixOf "mailto:".data ((jsTrim href).data.map lowerAscii)

/-- Line 58: `raw.slice(7)`. -/
def mailtoRest (href : String) : List Char := (jsTrim href).data.drop 7

/-- Line 61: the part before the first `?` (the whole rest when there is
none). -/
def mailtoAddrRaw (href : String) : String :=
  String.mk ((mailtoRest href).takeWhile (fun c => c != '?'))

/-- Line 62: the part after the first `?` (empty when there is none). -/
def mailtoQuery (href : String) : List Char :=
  ((mailtoRest href).dropWhile (fun c => c != '?')).drop 1

/-- Line 64's `|| DEFAULT_TO` fallback on the trimmed decoded address. -/
def fallbackTo (t : String) : String := if t = "" then DEFAULT_TO else t

/-- Line 69: `params.get('subject') || params.get('su') || ''`, guarded by
`if (query)`. -/
def subjectOfQuery (q : List Char) : String :=
  if q.isEmpty then ""
  else jsOrD (jsOrO (getParam (parseUrlencoded q) "subject") (getParam (parseUrlencoded q) "su"))

/-- Line 70: `params.get('body') || ''`, guarded by `if (query)`. -/
def bodyOfQuery (q : List Char) : String :=
  if q.isEmpty then "" else jsOrD (getParam (parseUrlencoded q) "body")

/-- Lines 50-77: `parseMailto`. `.error ()` is the propagated `URIError`
from `decodeURIComponent` on the address part (line 64, outside the
`try` block). -/
def parseMailto (href : String) : Except Unit EmailRequest :=
  if href = "" then .ok ⟨"", "", ""⟩
  else if hasMailtoScheme href then
    match decodeURIComponent (mailtoAddrRaw href) with
    | none => .error ()
    | some dec =>
        .ok ⟨fallbackTo (jsTrim dec), subjectOfQuery (mailtoQuery href), bodyOfQuery (mailtoQuery href)⟩
  else .ok ⟨"", "", ""⟩

/-- JS string truthiness: every string except the empty one is truthy. -/
def jsTruthy (s : String) : Bool := !(s == "")

/-- Lines 102-105: the Gmail compose link. -/
def gmailUrl (toAddr subject body : String) : String :=
  "https://mail.google.com/mail/?view=cm&fs=1&to=" ++ enc toAddr ++
  (if jsTruthy subject then "&su=" ++ enc subject else "") ++
  (if jsTruthy body then "&body=" ++ enc body else "")

/-- Lines 108-111: the Outlook Web compose link (it reuses `suEnc`,
i.e. `enc subject`, for its `subject` parameter). -/
def outlookUrl (toAddr subject body : String) : String :=
  "https://outlook.office.com/mail/deeplink/compose?to=" ++ enc toAddr ++
  (if jsTruthy subject then "&subject=" ++ enc subject else "") ++
  (if jsTruthy body then "&body=" ++ enc body else "")

/-- Lines 114-119: the native mailto link (raw, unencoded address). -/
def mailtoUrl (toAddr subject body : String) : String :=
  "mailto:" ++ toAddr ++
  (if jsTruthy subject || jsTruthy body then "?" else "") ++
  (if jsTruthy subject then "subject=" ++ enc subject else "") ++
  (if jsTruthy subject && jsTruthy body then "&" else "") ++
  (if jsTruthy body then "body=" ++ enc body else "")

/-- The modal's observable DOM state: open flag (`is-open` class),
`aria-hidden` attribute, the three link targets, and the displayed
recipient text. -/
structure ModalEls where
  isOpen : Bool
  ariaHidden : Bool
  gmailHref : String
  outlookHref : String
  mailtoHref : String
  toText : String
deriving DecidableEq, Repr

/-- The page state: the modal surface, if it has been rendered. -/
structure DomState where
  modal : Option ModalEls
deriving DecidableEq, Repr

/-- The markup `ensureModal` appends (lines 20-43): closed, hidden, link
targets unset, recipient text prefilled with `DEFAULT_TO`. -/
def initialEls : ModalEls :=
  { isOpen := false, ariaHidden := true,
    gmailHref := "", outlookHref := "", mailtoHref := "", toText := DEFAULT_TO }

/-- Lines 17-44: `ensureModal` creates the surface only when absent. -/
def ensureModal (s : DomState) : DomState :=
  match s.modal with
  | some _ => s
  | none => { modal := some initialEls }

/-- Lines 96-122: `buildLinks` sets the three hrefs and the recipient
text. -/
def buildLinks (m : ModalEls) (toAddr subject body : String) : ModalEls :=
  { m with gmailHref := gmailUrl toAddr subject body,
           outlookHref := outlookUrl toAddr subject body,
           mailtoHref := mailtoUrl toAddr subject body,
           toText := toAddr }

/-- The argument of `WTEmail.open`: a JS object whose fields may each be
absent (and, being JS, an absent field and a present-but-empty one are both
falsy). -/
structure Payload where
  toAddr : Option String
  subject : Option String
  body : Option String
deriving DecidableEq, Repr

/-- Line 129: `(payload && payload.to) ? payload.to : DEFAULT_TO`. -/
def resolveTo (p : Option Payload) : String :=
  match p with
  | none => DEFAULT_TO
  | some q =>
      match q.toAddr with
      | none => DEFAULT_TO
      | some t => if t = "" then DEFAULT_TO else t

/-- Line 130: `payload && payload.subject ? payload.subject : ''`. -/
def resolveSubject (p : Option Payload) : String :=
  match p with
  | none => ""
  | some q =>
      match q.subject with
      | none => ""
      | some t => if t = "" then "" else t

/-- Line 131: `payload && payload.body ? payload.body : ''`. -/
def resolveBody (p : Option Payload) : String :=
  match p with
  | none => ""
  | some q =>
      match q.body with
      | none => ""
      | some t => if t = "" then "" else t

/-- Lines 124-136: `openModal` (the public `WTEmail.open`). -/
def openModal (p : Option Payload) (s : DomState) : DomState :=
  let s1 := ensureModal s
  match s1.modal with
  | none => s1
  | some m =>
      { modal := some { buildLinks m (resolveTo p) (resolveSubject p) (resolveBody p) with
                        isOpen := true, ariaHidden := false } }

/-- Lines 138-143: `closeModal` (the public `WTEmail.close`): a no-op when
the surface does not exist, otherwise it clears `is-open` and hides the
dialog. -/
def closeModal (s : DomState) : DomState :=
  match s.modal with
  | none => s
  | some m => { modal := some { m with isOpen := false, ariaHidden := true } }

/-- The dialog counts as CLOSED when it is not rendered or not open. -/
def dialogClosed (s : DomState) : Bool :=
  match s.modal with
  | none => true
  | some m => !m.isOpen

/-- Substring test on character lists (used only in theorem statements). -/
def hasSub (p : List Char) : List Char → Bool
  | [] => List.isPrefixOf p []
  | c :: rest => List.isPrefixOf p (c :: rest) || hasSub p rest

/-- A character that the urlencoded query parser passes through unchanged:
not a pair separator `&`, not a key/value separator `=`, not a percent
escape starter `%`, and not a `+` (which would decode to a space). Used
only in theorem statements, to describe well-formed query values. -/
def plainQueryChar (c : Char) : Bool :=
  !(c = '&' || c = '=' || c = '%' || c = '+')

/-- Token form of the `encodeURIComponent` output (used only in theorem
statements and proofs): each unreserved character as a literal token, each
other character as the escape bytes of its UTF-8 encoding. -/
def encTokens (l : List Char) : List (Char ⊕ Nat) :=
  (l.map (fun c =>
    if encUnreservedChar c then [Sum.inl c] else (utf8Bytes c).map Sum.inr)).flatten

end EmailChooser

namespace EmailChooser

/-! ### Supporting lemmas -/

theorem str_ext {s t : String} (h : s.data = t.data) : s = t := by
  cases s; cases t; exact congrArg String.mk h

theorem data_append (s t : String) : (s ++ t).data = s.data ++ t.data := rfl

theorem list_isPrefixOf_append (l r : List Char) : List.isPrefixOf l (l ++ r) = true := by
  simp [List.isPrefixOf_iff_prefix]

/-! ### Claim C1 -/

/-- C1 counterexample: on the non-mailto input `"foo"`, `parseMailto` returns
an empty recipient, not the default address the claim requires. -/
theorem c1_counterexample :
    parseMailto "foo" = .ok ⟨"", "", ""⟩ ∧ ("" : String) ≠ DEFAULT_TO := by
  exact ⟨rfl, by decide⟩

/-- C1 (amended): for every input that does not start (case-insensitively,
after trimming) with the scheme `mailto:`, `parseMailto` returns the
EmailRequest whose recipient, subject and body are all the empty string;
the default address is substituted only later, by `openModal`. -/
theorem c1_parse_nonmailto (href : String) (h : hasMailtoScheme href = false) :
    parseMailto href = .ok ⟨"", "", ""⟩ := by
  unfold parseMailto
  by_cases h0 : href = ""
  · simp [h0]
  · simp [h0, h]

theorem c1_witness :
    hasMailtoScheme "foo" = false ∧ parseMailto "foo" = .ok ⟨"", "", ""⟩ :=
  ⟨by decide, c1_parse_nonmailto "foo" (by decide)⟩

/-! ### Claim C2 -/

/-- C2 counterexample: `parseMailto` propagates an error on
`"mailto:%"`, whose address part fails percent-decoding; the claim says it
should instead fall back to the default address. -/
theorem c2_counterexample : parseMailto "mailto:%" = .error () := rfl

/-- C2 (amended): `parseMailto` propagates an error exactly when the input
carries the mailto scheme and the percent-decoding of its address part
fails; for every other string input it returns normally (in particular the
query-string parsing never raises). -/
theorem c2_error_characterization (href : String) :
    parseMailto href = .error () ↔
      hasMailtoScheme href = true ∧ decodeURIComponent (mailtoAddrRaw href) = none := by
  unfold parseMailto
  by_cases h0 : href = ""
  · subst h0
    simp [show hasMailtoScheme "" = false by decide]
  · rw [if_neg h0]
    by_cases hs : hasMailtoScheme href = true
    · rw [if_pos hs]
      cases hdec : decodeURIComponent (mailtoAddrRaw href) with
      | none => simp [hs, hdec]
      | some d => simp [hs, hdec]
    · rw [if_neg hs]
      simp [hs]

theorem c2_witness : parseMailto "mailto:%" = .error () :=
  (c2_error_characterization "mailto:%").mpr ⟨by decide, by decide⟩

/-! ### Claim C5 -/

/-- C5: shape of the native mailto link: raw (unencoded) address, a `?`
exactly when subject or body is non-empty, `subject=` with the encoded
subject when the subject is non-empty, a joining `&` exactly when both are
non-empty, and `body=` with the encoded body when the body is non-empty. -/
theorem c5_mailto_link_shape (toAddr subject body : String) :
    mailtoUrl toAddr subject body =
      "mailto:" ++ toAddr ++
        (if subject = "" ∧ body = "" then ""
         else if body = "" then "?subject=" ++ enc subject
         else if subject = "" then "?body=" ++ enc body
         else "?subject=" ++ enc subject ++ "&body=" ++ enc body) := by
  by_cases hs : subject = "" <;> by_cases hb : body = "" <;>
    · apply str_ext
      simp [mailtoUrl, jsTruthy, hs, hb, data_append, List.append_assoc]

/-! ### Claim C6 -/

/-- C6: shape of the Gmail and Outlook compose links: the fixed endpoint
with the encoded `to` always present, the subject parameter (`su` for
Gmail, `subject` for Outlook) appended exactly when the subject is
non-empty, the `body` parameter appended exactly when the body is
non-empty, and empty optional parameters omitted entirely. -/
theorem c6_compose_link_shape (toAddr subject body : String) :
    gmailUrl toAddr subject body =
      "https://mail.google.com/mail/?view=cm&fs=1&to=" ++ enc toAddr ++
        (if subject = "" then "" else "&su=" ++ enc subject) ++
        (if body = "" then "" else "&body=" ++ enc body) ∧
    outlookUrl toAddr subject body =
      "https://outlook.office.com/mail/deeplink/compose?to=" ++ enc toAddr ++
        (if subject = "" then "" else "&subject=" ++ enc subject) ++
        (if body = "" then "" else "&body=" ++ enc body) := by
  constructor <;>
    (by_cases hs : subject = "" <;> by_cases hb : body = "" <;>
      simp [gmailUrl, outlookUrl, jsTruthy, hs, hb])

/-! ### Claim C7 -/

/-- C7: `parseMailto` and the three link builders are deterministic pure
functions: applying them twice to the same input yields identical results,
and every built link starts with its fixed endpoint followed by the
recipient parameter, so the parameter ordering is fixed and
input-independent. -/
theorem c7_deterministic :
    (∀ x : String, parseMailto x = parseMailto x) ∧
    (∀ toAddr subject body : String,
      gmailUrl toAddr subject body = gmailUrl toAddr subject body ∧
      outlookUrl toAddr subject body = outlookUrl toAddr subject body ∧
      mailtoUrl toAddr subject body = mailtoUrl toAddr subject body) ∧
    (∀ toAddr subject body : String,
      List.isPrefixOf ("https://mail.google.com/mail/?view=cm&fs=1&to=" ++ enc toAddr).data
        (gmailUrl toAddr subject body).data = true ∧
      List.isPrefixOf ("https://outlook.office.com/mail/deeplink/compose?to=" ++ enc toAddr).data
        (outlookUrl toAddr subject body).data = true ∧
      List.isPrefixOf ("mailto:" ++ toAddr).data
        (mailtoUrl toAddr subject body).data = true) := by
  refine ⟨fun _ => rfl, fun _ _ _ => ⟨rfl, rfl, rfl⟩, fun toAddr subject body => ⟨?_, ?_, ?_⟩⟩
  · have h : gmailUrl toAddr subject body =
        ("https://mail.google.com/mail/?view=cm&fs=1&to=" ++ enc toAddr) ++
          ((if jsTruthy subject then "&su=" ++ enc subject else "") ++
           (if jsTruthy body then "&body=" ++ enc body else "")) := by
      simp [gmailUrl, String.append_assoc]
    rw [h, data_append]
    exact list_isPrefixOf_append _ _
  · have h : outlookUrl toAddr subject body =
        ("https://outlook.office.com/mail/deeplink/compose?to=" ++ enc toAddr) ++
          ((if jsTruthy subject then "&subject=" ++ enc subject else "") ++
           (if jsTruthy body then "&body=" ++ enc body else "")) := by
      simp [outlookUrl, String.append_assoc]
    rw [h, data_append]
    exact list_isPrefixOf_append _ _
  · have h : mailtoUrl toAddr subject body =
        ("mailto:" ++ toAddr) ++
          ((if jsTruthy subject || jsTruthy body then "?" else "") ++
           ((if jsTruthy subject then "subject=" ++ enc subject else "") ++
            ((if jsTruthy subject && jsTruthy body then "&" else "") ++
             (if jsTruthy body then "body=" ++ enc body else "")))) := by
      simp [mailtoUrl, String.append_assoc]
    rw [h, data_append]
    exact list_isPrefixOf_append _ _

/-! ### Claim C8 -/

/-- C8: `closeModal` is idempotent and total: from every page state it
leaves the dialog closed, closing twice equals closing once, and calling it
before the surface exists is a silent no-op. -/
theorem c8_close_idempotent (s : DomState) :
    closeModal (closeModal s) = closeModal s ∧
    dialogClosed (closeModal s) = true ∧
    (s.modal = none → closeModal s = s) := by
  obtain ⟨m⟩ := s
  cases m <;> simp [closeModal, dialogClosed]

theorem c8_witness :
    closeModal (closeModal ⟨none⟩) = closeModal ⟨none⟩ ∧
    dialogClosed (closeModal ⟨none⟩) = true ∧
    closeModal (⟨none⟩ : DomState) = ⟨none⟩ :=
  ⟨(c8_close_idempotent ⟨none⟩).1, (c8_close_idempotent ⟨none⟩).2.1,
   (c8_close_idempotent ⟨none⟩).2.2 rfl⟩

/-! ### Claim C9 -/

/-- C9: `openModal` accepts a wholly absent payload and payloads with any
field absent; an absent or empty recipient resolves to the default address
and absent subject/body resolve to the empty string, and the three links
are built from exactly these resolved values. -/
theorem c9_open_defaults (p : Option Payload) (s : DomState) :
    (∃ m : ModalEls,
      (openModal p s).modal = some m ∧
      m.isOpen = true ∧ m.ariaHidden = false ∧
      m.gmailHref = gmailUrl (resolveTo p) (resolveSubject p) (resolveBody p) ∧
      m.outlookHref = outlookUrl (resolveTo p) (resolveSubject p) (resolveBody p) ∧
      m.mailtoHref = mailtoUrl (resolveTo p) (resolveSubject p) (resolveBody p) ∧
      m.toText = resolveTo p) ∧
    resolveTo none = DEFAULT_TO ∧
    (∀ q : Payload, q.toAddr = none ∨ q.toAddr = some "" → resolveTo (some q) = DEFAULT_TO) ∧
    resolveSubject none = "" ∧
    (∀ q : Payload, q.subject = none → resolveSubject (some q) = "") ∧
    resolveBody none = "" ∧
    (∀ q : Payload, q.body = none → resolveBody (some q) = "") := by
  refine ⟨?_, rfl, ?_, rfl, ?_, rfl, ?_⟩
  · obtain ⟨m⟩ := s
    cases m <;> exact ⟨_, rfl, rfl, rfl, rfl, rfl, rfl, rfl⟩
  · rintro q (h | h) <;> simp [resolveTo, h]
  · intro q h; simp [resolveSubject, h]
  · intro q h; simp [resolveBody, h]

theorem c9_witness :
    (∃ m : ModalEls,
      (openModal none ⟨none⟩).modal = some m ∧
      m.isOpen = true ∧ m.ariaHidden = false ∧
      m.gmailHref = gmailUrl (resolveTo none) (resolveSubject none) (resolveBody none) ∧
      m.outlookHref = outlookUrl (resolveTo none) (resolveSubject none) (resolveBody none) ∧
      m.mailtoHref = mailtoUrl (resolveTo none) (resolveSubject none) (resolveBody none) ∧
      m.toText = resolveTo none) ∧
    resolveTo (some ⟨none, none, none⟩) = DEFAULT_TO ∧
    resolveSubject (some ⟨none, none, none⟩) = "" ∧
    resolveBody (some ⟨none, none, none⟩) = "" :=
  ⟨(c9_open_defaults none ⟨none⟩).1,
   (c9_open_defaults none ⟨none⟩).2.2.1 ⟨none, none, none⟩ (Or.inl rfl),
   (c9_open_defaults none ⟨none⟩).2.2.2.2.1 ⟨none, none, none⟩ rfl,
   (c9_open_defaults none ⟨none⟩).2.2.2.2.2.2 ⟨none, none, none⟩ rfl⟩

/-! ### Claim C10 -/

/-- C10: because the query string goes through the urlencoded parser, a `+`
in a subject or body value decodes to a space: the subject of
`mailto:a@b.c?subject=Hi+there` is `Hi there`, not `Hi+there`. -/
theorem c10_plus_as_space :
    parseMailto "mailto:a@b.c?subject=Hi+there" = .ok ⟨"a@b.c", "Hi there", ""⟩ ∧
    ("Hi there" : String) ≠ "Hi+there" := by
  exact ⟨rfl, by decide⟩

end EmailChooser

namespace EmailChooser

/-! ### Lemmas about the urlencoded query parser -/

theorem mk_data (s : String) : String.mk s.data = s := rfl

theorem takeWhile_bne_append (x : Char) (l r : List Char) (h : x ∉ l) :
    List.takeWhile (fun c => c != x) (l ++ x :: r) = l := by
  induction l with
  | nil => simp [List.takeWhile_cons]
  | cons a l ih =>
      have ha : a ≠ x := fun e => h (by simp [e])
      have hl : x ∉ l := fun hm => h (List.mem_cons_of_mem _ hm)
      simp [List.takeWhile_cons, ha, ih hl]

theorem dropWhile_bne_append (x : Char) (l r : List Char) (h : x ∉ l) :
    List.dropWhile (fun c => c != x) (l ++ x :: r) = x :: r := by
  induction l with
  | nil => simp [List.dropWhile_cons]
  | cons a l ih =>
      have ha : a ≠ x := fun e => h (by simp [e])
      have hl : x ∉ l := fun hm => h (List.mem_cons_of_mem _ hm)
      simp [List.dropWhile_cons, ha, ih hl]

theorem splitOnChar_ne_nil (sep : Char) (l : List Char) : splitOnChar sep l ≠ [] := by
  cases l with
  | nil => simp [splitOnChar]
  | cons c rest =>
      rcases hsp : splitOnChar sep rest with _ | ⟨h, t⟩
      · simp [splitOnChar, hsp]
      · simp only [splitOnChar, hsp]
        split <;> simp

theorem splitOnChar_cons_sep (sep : Char) (r : List Char) :
    splitOnChar sep (sep :: r) = [] :: splitOnChar sep r := by
  rcases hsp : splitOnChar sep r with _ | ⟨h, t⟩
  · exact absurd hsp (splitOnChar_ne_nil sep r)
  · simp [splitOnChar, hsp]

theorem splitOnChar_not_mem (sep : Char) (l : List Char) (h : sep ∉ l) :
    splitOnChar sep l = [l] := by
  induction l with
  | nil => rfl
  | cons c rest ih =>
      have hc : c ≠ sep := fun e => h (by simp [e])
      have hrest : sep ∉ rest := fun hm => h (List.mem_cons_of_mem _ hm)
      simp [splitOnChar, ih hrest, hc]

theorem splitOnChar_append (sep : Char) (l r : List Char) (h : sep ∉ l) :
    splitOnChar sep (l ++ sep :: r) = l :: splitOnChar sep r := by
  induction l with
  | nil => simpa using splitOnChar_cons_sep sep r
  | cons c l ih =>
      have hc : c ≠ sep := fun e => h (by simp [e])
      have hl : sep ∉ l := fun hm => h (List.mem_cons_of_mem _ hm)
      simp [splitOnChar, ih hl, hc]

theorem stripLeadingQuestion_cons (c : Char) (t : List Char) (hc : c ≠ '?') :
    stripLeadingQuestion (c :: t) = c :: t := by
  unfold stripLeadingQuestion
  split
  · next t' heq =>
      injection heq with h1 h2
      exact absurd h1 hc
  · rfl

/-! ### UTF-8 round-trip on plain characters -/

theorem char_valid_bounds (c : Char) :
    c.toNat < 0xD800 ∨ (0xDFFF < c.toNat ∧ c.toNat < 0x110000) := c.valid

theorem contByte_true {b : Nat} (h1 : 0x80 ≤ b) (h2 : b ≤ 0xBF) : contByte b = true := by
  simp only [contByte, Bool.and_eq_true, decide_eq_true_eq]
  exact ⟨h1, h2⟩

theorem utf8Step_snd_length (b : Nat) (rest : List Nat) :
    (utf8Step b rest).2.length ≤ rest.length := by
  unfold utf8Step
  repeat' split
  all_goals try simp_all [List.length_cons]
  all_goals omega

theorem utf8DecodeReplaceAux_congr :
    ∀ (f1 f2 : Nat) (l : List Nat), l.length ≤ f1 → l.length ≤ f2 →
      utf8DecodeReplaceAux f1 l = utf8DecodeReplaceAux f2 l := by
  intro f1
  induction f1 with
  | zero =>
      intro f2 l h1 h2
      cases l with
      | nil => cases f2 <;> rfl
      | cons b rest => simp at h1
  | succ f ih =>
      intro f2 l h1 h2
      cases l with
      | nil => cases f2 <;> rfl
      | cons b rest =>
          cases f2 with
          | zero => simp at h2
          | succ f2' =>
              simp only [utf8DecodeReplaceAux]
              congr 1
              apply ih
              · exact le_trans (utf8Step_snd_length b rest)
                  (Nat.le_of_succ_le_succ (by simpa using h1))
              · exact le_trans (utf8Step_snd_length b rest)
                  (Nat.le_of_succ_le_succ (by simpa using h2))

theorem utf8DecodeReplace_cons (b : Nat) (rest : List Nat) :
    utf8DecodeReplace (b :: rest) =
      (utf8Step b rest).1 :: utf8DecodeReplace (utf8Step b rest).2 := by
  unfold utf8DecodeReplace
  simp only [List.length_cons, utf8DecodeReplaceAux]
  congr 1
  exact utf8DecodeReplaceAux_congr _ _ _ (utf8Step_snd_length b rest) (le_refl _)

theorem utf8Step_one (b0 : Nat) (rest : List Nat) (h : b0 < 0x80) :
    utf8Step b0 rest = (Char.ofNat b0, rest) := by
  unfold utf8Step
  rw [if_pos h]

theorem utf8Step_two (b0 b1 : Nat) (rest : List Nat)
    (h0 : 0xC2 ≤ b0) (h0' : b0 < 0xE0) (h1 : contByte b1 = true) :
    utf8Step b0 (b1 :: rest) = (Char.ofNat ((b0 - 0xC0) * 64 + (b1 - 0x80)), rest) := by
  unfold utf8Step
  rw [if_neg (by omega), if_neg (by omega), if_pos (by omega)]
  dsimp only
  rw [if_pos h1]

theorem utf8Step_three (b0 b1 b2 : Nat) (rest : List Nat)
    (h0 : 0xE0 ≤ b0) (h0' : b0 < 0xF0)
    (hb1 : utf8InBounds b0 b1 = true) (hb2 : contByte b2 = true) :
    utf8Step b0 (b1 :: b2 :: rest) =
      (Char.ofNat ((b0 - 0xE0) * 4096 + (b1 - 0x80) * 64 + (b2 - 0x80)), rest) := by
  unfold utf8Step
  rw [if_neg (by omega), if_neg (by omega), if_neg (by omega), if_pos (by omega)]
  try dsimp only
  rw [if_pos hb1]
  try dsimp only
  rw [if_pos hb2]

theorem utf8Step_four (b0 b1 b2 b3 : Nat) (rest : List Nat)
    (h0 : 0xF0 ≤ b0) (h0' : b0 < 0xF5)
    (hb1 : utf8InBounds b0 b1 = true) (hb2 : contByte b2 = true) (hb3 : contByte b3 = true) :
    utf8Step b0 (b1 :: b2 :: b3 :: rest) =
      (Char.ofNat ((b0 - 0xF0) * 262144 + (b1 - 0x80) * 4096 +
        (b2 - 0x80) * 64 + (b3 - 0x80)), rest) := by
  unfold utf8Step
  rw [if_neg (by omega), if_neg (by omega), if_neg (by omega), if_neg (by omega),
    if_pos (by omega)]
  try dsimp only
  rw [if_pos hb1]
  try dsimp only
  rw [if_pos hb2]
  try dsimp only
  rw [if_pos hb3]

theorem utf8DecodeReplace_bytes (c : Char) (rest : List Nat) :
    utf8DecodeReplace (utf8Bytes c ++ rest) = c :: utf8DecodeReplace rest := by
  have hv := char_valid_bounds c
  by_cases h1 : c.toNat < 0x80
  · have e : utf8Bytes c = [c.toNat] := by simp [utf8Bytes, h1]
    rw [e]
    simp only [List.cons_append, List.nil_append]
    rw [utf8DecodeReplace_cons, utf8Step_one _ _ h1, Char.ofNat_toNat]
  · by_cases h2 : c.toNat < 0x800
    · have e : utf8Bytes c = [0xC0 + c.toNat / 64, 0x80 + c.toNat % 64] := by
        simp [utf8Bytes, h1, h2]
      rw [e]
      simp only [List.cons_append, List.nil_append]
      rw [utf8DecodeReplace_cons, utf8Step_two _ _ _ (by omega) (by omega)
        (contByte_true (by omega) (by omega))]
      have harg : (0xC0 + c.toNat / 64 - 0xC0) * 64 + (0x80 + c.toNat % 64 - 0x80) = c.toNat := by
        omega
      rw [harg, Char.ofNat_toNat]
    · by_cases h3 : c.toNat < 0x10000
      · have e : utf8Bytes c =
            [0xE0 + c.toNat / 4096, 0x80 + c.toNat / 64 % 64, 0x80 + c.toNat % 64] := by
          simp [utf8Bytes, h1, h2, h3]
        rw [e]
        simp only [List.cons_append, List.nil_append]
        have hb1 : utf8InBounds (0xE0 + c.toNat / 4096) (0x80 + c.toNat / 64 % 64) = true := by
          unfold utf8InBounds
          split_ifs <;> simp only [contByte, Bool.and_eq_true, decide_eq_true_eq] <;> omega
        rw [utf8DecodeReplace_cons, utf8Step_three _ _ _ _ (by omega) (by omega) hb1
          (contByte_true (by omega) (by omega))]
        have harg : (0xE0 + c.toNat / 4096 - 0xE0) * 4096 +
            (0x80 + c.toNat / 64 % 64 - 0x80) * 64 + (0x80 + c.toNat % 64 - 0x80) = c.toNat := by
          omega
        rw [harg, Char.ofNat_toNat]
      · have e : utf8Bytes c =
            [0xF0 + c.toNat / 262144, 0x80 + c.toNat / 4096 % 64,
             0x80 + c.toNat / 64 % 64, 0x80 + c.toNat % 64] := by
          simp [utf8Bytes, h1, h2, h3]
        rw [e]
        simp only [List.cons_append, List.nil_append]
        have hbig : c.toNat < 0x110000 := by rcases hv with h | ⟨_, h⟩ <;> omega
        have hb1 : utf8InBounds (0xF0 + c.toNat / 262144) (0x80 + c.toNat / 4096 % 64) = true := by
          unfold utf8InBounds
          split_ifs <;> simp only [contByte, Bool.and_eq_true, decide_eq_true_eq] <;> omega
        rw [utf8DecodeReplace_cons, utf8Step_four _ _ _ _ _ (by omega) (by omega) hb1
          (contByte_true (by omega) (by omega)) (contByte_true (by omega) (by omega))]
        have harg : (0xF0 + c.toNat / 262144 - 0xF0) * 262144 +
            (0x80 + c.toNat / 4096 % 64 - 0x80) * 4096 +
            (0x80 + c.toNat / 64 % 64 - 0x80) * 64 + (0x80 + c.toNat % 64 - 0x80) = c.toNat := by
          omega
        rw [harg, Char.ofNat_toNat]

theorem utf8DecodeReplace_flatten (l : List Char) (rest : List Nat) :
    utf8DecodeReplace ((l.map utf8Bytes).flatten ++ rest) = l ++ utf8DecodeReplace rest := by
  induction l with
  | nil => simp
  | cons c l ih =>
      simp only [List.map_cons, List.flatten_cons, List.append_assoc]
      rw [utf8DecodeReplace_bytes, ih]
      rfl

theorem formBytes_cons_plain (c : Char) (rest : List Char) (h1 : c ≠ '+') (h2 : c ≠ '%') :
    formBytes (c :: rest) = utf8Bytes c ++ formBytes rest := by
  rw [formBytes.eq_def]
  split <;> simp_all

theorem formBytes_plain (l : List Char) (h : ∀ c ∈ l, plainQueryChar c = true) :
    formBytes l = (l.map utf8Bytes).flatten := by
  induction l with
  | nil => rfl
  | cons c rest ih =>
      have hc := h c (List.mem_cons_self c rest)
      have hrest : ∀ x ∈ rest, plainQueryChar x = true :=
        fun x hx => h x (List.mem_cons_of_mem _ hx)
      have hplus : c ≠ '+' := by rintro rfl; simp [plainQueryChar] at hc
      have hpct : c ≠ '%' := by rintro rfl; simp [plainQueryChar] at hc
      rw [formBytes_cons_plain c rest hplus hpct, ih hrest]
      simp

theorem formDecode_plain (l : List Char) (h : ∀ c ∈ l, plainQueryChar c = true) :
    formDecode l = String.mk l := by
  unfold formDecode
  rw [formBytes_plain l h]
  have h0 := utf8DecodeReplace_flatten l []
  simp only [List.append_nil] at h0
  rw [h0]
  simp [show utf8DecodeReplace [] = ([] : List Char) from rfl]

theorem parsePair_eq (k v : List Char) (hk : '=' ∉ k) :
    parsePair (k ++ '=' :: v) = (formDecode k, formDecode v) := by
  unfold parsePair
  rw [takeWhile_bne_append '=' k v hk, dropWhile_bne_append '=' k v hk]
  simp

theorem parseUrlencoded_pair_pair (k1 v1 k2 v2 : List Char)
    (hk1 : k1 ≠ []) (hq5 : '?' ∉ k1) (hk2 : k2 ≠ [])
    (h1 : ∀ c ∈ k1, plainQueryChar c = true) (h2 : ∀ c ∈ v1, plainQueryChar c = true)
    (h3 : ∀ c ∈ k2, plainQueryChar c = true) (h4 : ∀ c ∈ v2, plainQueryChar c = true) :
    parseUrlencoded (k1 ++ '=' :: (v1 ++ '&' :: (k2 ++ '=' :: v2))) =
      [(String.mk k1, String.mk v1), (String.mk k2, String.mk v2)] := by
  have heq1 : '=' ∉ k1 := fun hm => by have := h1 '=' hm; simp [plainQueryChar] at this
  have heq2 : '=' ∉ k2 := fun hm => by have := h3 '=' hm; simp [plainQueryChar] at this
  have hamp1 : '&' ∉ k1 ++ '=' :: v1 := by
    intro hm
    rcases List.mem_append.mp hm with hm | hm
    · have := h1 '&' hm; simp [plainQueryChar] at this
    · rcases List.mem_cons.mp hm with hm | hm
      · exact absurd hm (by decide)
      · have := h2 '&' hm; simp [plainQueryChar] at this
  have hamp2 : '&' ∉ k2 ++ '=' :: v2 := by
    intro hm
    rcases List.mem_append.mp hm with hm | hm
    · have := h3 '&' hm; simp [plainQueryChar] at this
    · rcases List.mem_cons.mp hm with hm | hm
      · exact absurd hm (by decide)
      · have := h4 '&' hm; simp [plainQueryChar] at this
  obtain ⟨c0, k1', rfl⟩ := List.exists_cons_of_ne_nil hk1
  have hc0 : c0 ≠ '?' := fun e => hq5 (by simp [e])
  unfold parseUrlencoded
  rw [show (c0 :: k1') ++ '=' :: (v1 ++ '&' :: (k2 ++ '=' :: v2)) =
      c0 :: (k1' ++ '=' :: (v1 ++ '&' :: (k2 ++ '=' :: v2))) from rfl]
  rw [stripLeadingQuestion_cons c0 _ hc0]
  rw [show c0 :: (k1' ++ '=' :: (v1 ++ '&' :: (k2 ++ '=' :: v2))) =
      ((c0 :: k1') ++ '=' :: v1) ++ '&' :: (k2 ++ '=' :: v2) from by simp]
  rw [splitOnChar_append '&' _ _ hamp1, splitOnChar_not_mem '&' _ hamp2]
  have hne1 : (((c0 :: k1') ++ '=' :: v1).isEmpty) = false := by simp
  have hne2 : ((k2 ++ '=' :: v2).isEmpty) = false := by
    obtain ⟨c2, k2', rfl⟩ := List.exists_cons_of_ne_nil hk2
    simp
  simp only [List.filter_cons, hne1, hne2, Bool.not_false, if_pos, List.filter_nil,
    List.map_cons, List.map_nil]
  rw [parsePair_eq _ _ heq1, parsePair_eq _ _ heq2]
  rw [formDecode_plain _ h1, formDecode_plain _ h2, formDecode_plain _ h3, formDecode_plain _ h4]

/-! ### Evaluation lemmas for `parseMailto` -/

theorem parseMailto_eval (href : String) (h0 : href ≠ "")
    (hs : hasMailtoScheme href = true) (d : String)
    (hd : decodeURIComponent (mailtoAddrRaw href) = some d) :
    parseMailto href =
      .ok ⟨fallbackTo (jsTrim d), subjectOfQuery (mailtoQuery href),
           bodyOfQuery (mailtoQuery href)⟩ := by
  unfold parseMailto
  rw [if_neg h0, if_pos hs, hd]

theorem jsOr_some_none (s : String) : jsOrD (jsOrO (some s) none) = s := by
  by_cases h : s = "" <;> simp [jsOrO, jsOrD, h]

theorem jsOr_some_some {s : String} (t : String) (h : s ≠ "") :
    jsOrD (jsOrO (some s) (some t)) = s := by
  simp [jsOrO, jsOrD, h]

theorem jsOr_empty_some (t : String) : jsOrD (jsOrO (some "") (some t)) = t := by
  simp [jsOrO, jsOrD]

end EmailChooser

namespace EmailChooser

theorem jsOr_truthy {s : String} (b : Option String) (h : s ≠ "") :
    jsOrD (jsOrO (some s) b) = s := by
  simp [jsOrO, jsOrD, h]

/-! ### Claim C3 -/

/-- C3: on well-formed `mailto:addr?subject=S&body=B` inputs (address free
of `?` and decoding to a trimmed non-empty string, S and B free of the
query metacharacters, no trimmable edges) the decomposer returns exactly
the percent-decoded address, S and B; and the `su` key is used as the
subject only when `subject` is absent, which per JS truthiness includes the
case of `subject` present with an empty value. -/
theorem c3_wellformed_decomposition :
    (∀ addr S B d : String,
      '?' ∉ addr.data →
      decodeURIComponent addr = some d →
      jsTrim d = d → d ≠ "" →
      (∀ c ∈ S.data, plainQueryChar c = true) →
      (∀ c ∈ B.data, plainQueryChar c = true) →
      jsTrim ("mailto:" ++ addr ++ "?subject=" ++ S ++ "&body=" ++ B) =
        "mailto:" ++ addr ++ "?subject=" ++ S ++ "&body=" ++ B →
      parseMailto ("mailto:" ++ addr ++ "?subject=" ++ S ++ "&body=" ++ B) = .ok ⟨d, S, B⟩) ∧
    (∀ S T : String, S ≠ "" →
      (∀ c ∈ S.data, plainQueryChar c = true) →
      (∀ c ∈ T.data, plainQueryChar c = true) →
      jsTrim ("mailto:a?subject=" ++ S ++ "&su=" ++ T) =
        "mailto:a?subject=" ++ S ++ "&su=" ++ T →
      parseMailto ("mailto:a?subject=" ++ S ++ "&su=" ++ T) = .ok ⟨"a", S, ""⟩) ∧
    (∀ T : String,
      (∀ c ∈ T.data, plainQueryChar c = true) →
      jsTrim ("mailto:a?subject=&su=" ++ T) = "mailto:a?subject=&su=" ++ T →
      parseMailto ("mailto:a?subject=&su=" ++ T) = .ok ⟨"a", T, ""⟩) := by
  have em : ("mailto:" : String).data = ['m','a','i','l','t','o',':'] := by decide
  have e1 : ("?subject=" : String).data = ['?','s','u','b','j','e','c','t','='] := by decide
  have e2 : ("&body=" : String).data = ['&','b','o','d','y','='] := by decide
  have e3 : ("subject" : String).data = ['s','u','b','j','e','c','t'] := by decide
  have e4 : ("body" : String).data = ['b','o','d','y'] := by decide
  have ea : ("mailto:a?subject=" : String).data =
      ['m','a','i','l','t','o',':','a','?','s','u','b','j','e','c','t','='] := by decide
  have ea2 : ("mailto:a?subject=&su=" : String).data =
      ['m','a','i','l','t','o',':','a','?','s','u','b','j','e','c','t','=','&','s','u','='] := by
    decide
  have esu : ("&su=" : String).data = ['&','s','u','='] := by decide
  have es : ("su" : String).data = ['s','u'] := by decide
  have hmaplow : List.map lowerAscii ("mailto:" : String).data = ("mailto:" : String).data := by
    rw [em]; decide
  have hemp : ("" : String).data = ([] : List Char) := rfl
  refine ⟨?_, ?_, ?_⟩
  · intro addr S B d hq hdec hdt hdne hS hB htrim
    set href := "mailto:" ++ addr ++ "?subject=" ++ S ++ "&body=" ++ B with hhref
    have hdata : href.data =
        "mailto:".data ++ (addr.data ++ ('?' :: ("subject".data ++ ('=' :: (S.data ++
          ('&' :: ("body".data ++ ('=' :: B.data)))))))) := by
      simp [hhref, data_append, em, e1, e2, e3, e4, List.append_assoc]
    have h0 : href ≠ "" := by
      intro hcon
      rw [hcon] at hdata
      simp [hemp, em] at hdata
    have hrest : mailtoRest href =
        addr.data ++ ('?' :: ("subject".data ++ ('=' :: (S.data ++
          ('&' :: ("body".data ++ ('=' :: B.data))))))) := by
      unfold mailtoRest
      rw [htrim, hdata, show (7 : Nat) = ("mailto:" : String).data.length from by decide]
      exact List.drop_left _ _
    have haddr : mailtoAddrRaw href = addr := by
      unfold mailtoAddrRaw
      rw [hrest, takeWhile_bne_append '?' _ _ hq, mk_data]
    have hquery : mailtoQuery href =
        "subject".data ++ ('=' :: (S.data ++ ('&' :: ("body".data ++ ('=' :: B.data))))) := by
      unfold mailtoQuery
      rw [hrest, dropWhile_bne_append '?' _ _ hq]
      rfl
    have hscheme : hasMailtoScheme href = true := by
      unfold hasMailtoScheme
      rw [htrim, hdata, List.map_append, hmaplow]
      exact list_isPrefixOf_append _ _
    have hpp := parseUrlencoded_pair_pair ("subject" : String).data S.data
      ("body" : String).data B.data (by decide) (by decide) (by decide)
      (by decide) hS (by decide) hB
    simp only [mk_data] at hpp
    have hne : (mailtoQuery href).isEmpty = false := by
      rw [hquery, e3]
      simp
    have g1 : getParam [("subject", S), ("body", B)] "subject" = some S := by
      simp [getParam, List.find?]
    have g2 : getParam [("subject", S), ("body", B)] "su" = none := by
      simp [getParam, List.find?, show (("subject" : String) == "su") = false from by decide,
        show (("body" : String) == "su") = false from by decide]
    have g3 : getParam [("subject", S), ("body", B)] "body" = some B := by
      simp [getParam, List.find?, show (("subject" : String) == "body") = false from by decide]
    have hsub : subjectOfQuery (mailtoQuery href) = S := by
      unfold subjectOfQuery
      rw [if_neg (by simp [hne]), hquery, hpp, g1, g2, jsOr_some_none]
    have hbody : bodyOfQuery (mailtoQuery href) = B := by
      unfold bodyOfQuery
      rw [if_neg (by simp [hne]), hquery, hpp, g3]
      rfl
    rw [parseMailto_eval href h0 hscheme d (by rw [haddr]; exact hdec)]
    rw [hsub, hbody, hdt]
    unfold fallbackTo
    rw [if_neg hdne]
  · intro S T hSne hS hT htrim
    set href := "mailto:a?subject=" ++ S ++ "&su=" ++ T with hhref
    have hdata : href.data =
        "mailto:".data ++ (['a'] ++ ('?' :: ("subject".data ++ ('=' :: (S.data ++
          ('&' :: ("su".data ++ ('=' :: T.data)))))))) := by
      simp [hhref, data_append, em, ea, e3, esu, es, List.append_assoc]
    have h0 : href ≠ "" := by
      intro hcon
      rw [hcon] at hdata
      simp [hemp, em] at hdata
    have hrest : mailtoRest href =
        ['a'] ++ ('?' :: ("subject".data ++ ('=' :: (S.data ++
          ('&' :: ("su".data ++ ('=' :: T.data))))))) := by
      unfold mailtoRest
      rw [htrim, hdata, show (7 : Nat) = ("mailto:" : String).data.length from by decide]
      exact List.drop_left _ _
    have haddr : mailtoAddrRaw href = "a" := by
      unfold mailtoAddrRaw
      rw [hrest, takeWhile_bne_append '?' _ _ (by decide)]
    have hquery : mailtoQuery href =
        "subject".data ++ ('=' :: (S.data ++ ('&' :: ("su".data ++ ('=' :: T.data))))) := by
      unfold mailtoQuery
      rw [hrest, dropWhile_bne_append '?' _ _ (by decide)]
      rfl
    have hscheme : hasMailtoScheme href = true := by
      unfold hasMailtoScheme
      rw [htrim, hdata, List.map_append, hmaplow]
      exact list_isPrefixOf_append _ _
    have hpp := parseUrlencoded_pair_pair ("subject" : String).data S.data
      ("su" : String).data T.data (by decide) (by decide) (by decide)
      (by decide) hS (by decide) hT
    simp only [mk_data] at hpp
    have hne : (mailtoQuery href).isEmpty = false := by
      rw [hquery, e3]
      simp
    have g1 : getParam [("subject", S), ("su", T)] "subject" = some S := by
      simp [getParam, List.find?]
    have g3 : getParam [("subject", S), ("su", T)] "body" = none := by
      simp [getParam, List.find?, show (("subject" : String) == "body") = false from by decide,
        show (("su" : String) == "body") = false from by decide]
    have hsub : subjectOfQuery (mailtoQuery href) = S := by
      unfold subjectOfQuery
      rw [if_neg (by simp [hne]), hquery, hpp, g1, jsOr_truthy _ hSne]
    have hbody : bodyOfQuery (mailtoQuery href) = "" := by
      unfold bodyOfQuery
      rw [if_neg (by simp [hne]), hquery, hpp, g3]
      rfl
    rw [parseMailto_eval href h0 hscheme "a" (by rw [haddr]; decide)]
    rw [hsub, hbody]
    rw [show fallbackTo (jsTrim "a") = "a" from by decide]
  · intro T hT htrim
    set href := "mailto:a?subject=&su=" ++ T with hhref
    have hdata : href.data =
        "mailto:".data ++ (['a'] ++ ('?' :: ("subject".data ++ ('=' :: (([] : List Char) ++
          ('&' :: ("su".data ++ ('=' :: T.data)))))))) := by
      simp [hhref, data_append, em, ea2, e3, es, List.append_assoc]
    have h0 : href ≠ "" := by
      intro hcon
      rw [hcon] at hdata
      simp [hemp, em] at hdata
    have hrest : mailtoRest href =
        ['a'] ++ ('?' :: ("subject".data ++ ('=' :: (([] : List Char) ++
          ('&' :: ("su".data ++ ('=' :: T.data))))))) := by
      unfold mailtoRest
      rw [htrim, hdata, show (7 : Nat) = ("mailto:" : String).data.length from by decide]
      exact List.drop_left _ _
    have haddr : mailtoAddrRaw href = "a" := by
      unfold mailtoAddrRaw
      rw [hrest, takeWhile_bne_append '?' _ _ (by decide)]
    have hquery : mailtoQuery href =
        "subject".data ++ ('=' :: (([] : List Char) ++
          ('&' :: ("su".data ++ ('=' :: T.data))))) := by
      unfold mailtoQuery
      rw [hrest, dropWhile_bne_append '?' _ _ (by decide)]
      rfl
    have hscheme : hasMailtoScheme href = true := by
      unfold hasMailtoScheme
      rw [htrim, hdata, List.map_append, hmaplow]
      exact list_isPrefixOf_append _ _
    have hpp := parseUrlencoded_pair_pair ("subject" : String).data ([] : List Char)
      ("su" : String).data T.data (by decide) (by decide) (by decide)
      (by decide) (by simp) (by decide) hT
    simp only [mk_data] at hpp
    rw [show String.mk ([] : List Char) = "" from by decide] at hpp
    have hne : (mailtoQuery href).isEmpty = false := by
      rw [hquery, e3]
      simp
    have g1 : getParam [("subject", ""), ("su", T)] "subject" = some "" := by
      simp [getParam, List.find?]
    have g3 : getParam [("subject", ""), ("su", T)] "su" = some T := by
      simp [getParam, List.find?, show (("subject" : String) == "su") = false from by decide]
    have g4 : getParam [("subject", ""), ("su", T)] "body" = none := by
      simp [getParam, List.find?, show (("subject" : String) == "body") = false from by decide,
        show (("su" : String) == "body") = false from by decide]
    have hsub : subjectOfQuery (mailtoQuery href) = T := by
      unfold subjectOfQuery
      rw [if_neg (by simp [hne]), hquery, hpp, g1, g3, jsOr_empty_some]
    have hbody : bodyOfQuery (mailtoQuery href) = "" := by
      unfold bodyOfQuery
      rw [if_neg (by simp [hne]), hquery, hpp, g4]
      rfl
    rw [parseMailto_eval href h0 hscheme "a" (by rw [haddr]; decide)]
    rw [hsub, hbody]
    rw [show fallbackTo (jsTrim "a") = "a" from by decide]

theorem c3_witness :
    parseMailto ("mailto:" ++ "sales@example.com" ++ "?subject=" ++ "Hi" ++ "&body=" ++ "Yo") =
      .ok ⟨"sales@example.com", "Hi", "Yo"⟩ :=
  c3_wellformed_decomposition.1 "sales@example.com" "Hi" "Yo" "sales@example.com"
    (by decide) (by decide) (by decide) (by decide) (by decide) (by decide) (by decide)

end EmailChooser

namespace EmailChooser

/-! ### Round trip of the percent-encoder through the strict decoder -/

theorem decodeTokensStep_one (b : Nat) (rest : List (Char ⊕ Nat)) (h : b < 0x80) :
    decodeTokensStep b rest = some (Char.ofNat b, rest) := by
  unfold decodeTokensStep
  rw [if_pos h]

theorem decodeTokensStep_two (b0 b1 : Nat) (rest : List (Char ⊕ Nat))
    (h0 : 0xC0 ≤ b0) (h0' : b0 < 0xE0)
    (hcond : (contByte b1 && decide (0x80 ≤ (b0 - 0xC0) * 64 + (b1 - 0x80))) = true) :
    decodeTokensStep b0 (Sum.inr b1 :: rest) =
      some (Char.ofNat ((b0 - 0xC0) * 64 + (b1 - 0x80)), rest) := by
  unfold decodeTokensStep
  rw [if_neg (by omega), if_neg (by omega), if_pos (by omega)]
  try dsimp only
  rw [if_pos hcond]

theorem decodeTokensStep_three (b0 b1 b2 : Nat) (rest : List (Char ⊕ Nat))
    (h0 : 0xE0 ≤ b0) (h0' : b0 < 0xF0)
    (hcond : (contByte b1 && contByte b2 &&
        decide (0x800 ≤ (b0 - 0xE0) * 4096 + (b1 - 0x80) * 64 + (b2 - 0x80)) &&
        !(decide (0xD800 ≤ (b0 - 0xE0) * 4096 + (b1 - 0x80) * 64 + (b2 - 0x80)) &&
          decide ((b0 - 0xE0) * 4096 + (b1 - 0x80) * 64 + (b2 - 0x80) ≤ 0xDFFF))) = true) :
    decodeTokensStep b0 (Sum.inr b1 :: Sum.inr b2 :: rest) =
      some (Char.ofNat ((b0 - 0xE0) * 4096 + (b1 - 0x80) * 64 + (b2 - 0x80)), rest) := by
  unfold decodeTokensStep
  rw [if_neg (by omega), if_neg (by omega), if_neg (by omega), if_pos (by omega)]
  try dsimp only
  rw [if_pos hcond]

theorem decodeTokensStep_four (b0 b1 b2 b3 : Nat) (rest : List (Char ⊕ Nat))
    (h0 : 0xF0 ≤ b0) (h0' : b0 < 0xF8)
    (hcond : (contByte b1 && contByte b2 && contByte b3 &&
        decide (0x10000 ≤ (b0 - 0xF0) * 262144 + (b1 - 0x80) * 4096 +
          (b2 - 0x80) * 64 + (b3 - 0x80)) &&
        decide ((b0 - 0xF0) * 262144 + (b1 - 0x80) * 4096 +
          (b2 - 0x80) * 64 + (b3 - 0x80) ≤ 0x10FFFF)) = true) :
    decodeTokensStep b0 (Sum.inr b1 :: Sum.inr b2 :: Sum.inr b3 :: rest) =
      some (Char.ofNat ((b0 - 0xF0) * 262144 + (b1 - 0x80) * 4096 +
        (b2 - 0x80) * 64 + (b3 - 0x80)), rest) := by
  unfold decodeTokensStep
  rw [if_neg (by omega), if_neg (by omega), if_neg (by omega), if_neg (by omega),
    if_pos (by omega)]
  try dsimp only
  rw [if_pos hcond]

theorem decodeTokensStep_snd_length (b : Nat) (rest rest' : List (Char ⊕ Nat)) (c : Char)
    (h : decodeTokensStep b rest = some (c, rest')) : rest'.length ≤ rest.length := by
  unfold decodeTokensStep at h
  repeat' split at h
  all_goals try simp_all [List.length_cons]
  all_goals omega

theorem decodeTokensAux_congr :
    ∀ (f1 f2 : Nat) (ts : List (Char ⊕ Nat)), ts.length ≤ f1 → ts.length ≤ f2 →
      decodeTokensAux f1 ts = decodeTokensAux f2 ts := by
  intro f1
  induction f1 with
  | zero =>
      intro f2 ts h1 h2
      cases ts with
      | nil => cases f2 <;> rfl
      | cons t rest => simp at h1
  | succ f ih =>
      intro f2 ts h1 h2
      cases ts with
      | nil => cases f2 <;> rfl
      | cons t rest =>
          cases f2 with
          | zero => simp at h2
          | succ f2' =>
              have hr1 : rest.length ≤ f := by simp only [List.length_cons] at h1; omega
              have hr2 : rest.length ≤ f2' := by simp only [List.length_cons] at h2; omega
              cases t with
              | inl c =>
                  simp only [decodeTokensAux]
                  rw [ih f2' rest hr1 hr2]
              | inr b =>
                  simp only [decodeTokensAux]
                  cases hstep : decodeTokensStep b rest with
                  | none => simp [hstep]
                  | some pr =>
                      obtain ⟨c, rest'⟩ := pr
                      have hlen := decodeTokensStep_snd_length b rest rest' c hstep
                      simp only [hstep]
                      rw [ih f2' rest' (le_trans hlen hr1) (le_trans hlen hr2)]

theorem decodeTokens_inl (c : Char) (rest : List (Char ⊕ Nat)) :
    decodeTokens (Sum.inl c :: rest) = (decodeTokens rest).map (fun cs => c :: cs) := rfl

theorem decodeTokens_inr_step (b : Nat) (rest rest' : List (Char ⊕ Nat)) (c : Char)
    (h : decodeTokensStep b rest = some (c, rest')) :
    decodeTokens (Sum.inr b :: rest) = (decodeTokens rest').map (fun cs => c :: cs) := by
  have hlen := decodeTokensStep_snd_length b rest rest' c h
  unfold decodeTokens
  simp only [List.length_cons, decodeTokensAux, h]
  rw [decodeTokensAux_congr rest.length rest'.length rest' hlen (le_refl _)]

theorem decodeTokens_bytes (c : Char) (ts : List (Char ⊕ Nat)) :
    decodeTokens ((utf8Bytes c).map Sum.inr ++ ts) =
      (decodeTokens ts).map (fun cs => c :: cs) := by
  have hv := char_valid_bounds c
  by_cases h1 : c.toNat < 0x80
  · have e : utf8Bytes c = [c.toNat] := by simp [utf8Bytes, h1]
    rw [e]
    simp only [List.map_cons, List.map_nil, List.cons_append, List.nil_append]
    rw [decodeTokens_inr_step _ _ _ _ (decodeTokensStep_one c.toNat ts h1)]
    simp only [Char.ofNat_toNat]
  · by_cases h2 : c.toNat < 0x800
    · have e : utf8Bytes c = [0xC0 + c.toNat / 64, 0x80 + c.toNat % 64] := by
        simp [utf8Bytes, h1, h2]
      rw [e]
      simp only [List.map_cons, List.map_nil, List.cons_append, List.nil_append]
      have hcond : (contByte (0x80 + c.toNat % 64) &&
          decide (0x80 ≤ (0xC0 + c.toNat / 64 - 0xC0) * 64 + (0x80 + c.toNat % 64 - 0x80))) =
          true := by
        rw [contByte_true (by omega) (by omega), decide_eq_true (by omega)]
        rfl
      rw [decodeTokens_inr_step _ _ _ _
        (decodeTokensStep_two _ _ _ (by omega) (by omega) hcond)]
      have harg : (0xC0 + c.toNat / 64 - 0xC0) * 64 + (0x80 + c.toNat % 64 - 0x80) = c.toNat := by
        omega
      simp only [harg, Char.ofNat_toNat]
    · by_cases h3 : c.toNat < 0x10000
      · have e : utf8Bytes c =
            [0xE0 + c.toNat / 4096, 0x80 + c.toNat / 64 % 64, 0x80 + c.toNat % 64] := by
          simp [utf8Bytes, h1, h2, h3]
        rw [e]
        simp only [List.map_cons, List.map_nil, List.cons_append, List.nil_append]
        have hcond : (contByte (0x80 + c.toNat / 64 % 64) && contByte (0x80 + c.toNat % 64) &&
            decide (0x800 ≤ (0xE0 + c.toNat / 4096 - 0xE0) * 4096 +
              (0x80 + c.toNat / 64 % 64 - 0x80) * 64 + (0x80 + c.toNat % 64 - 0x80)) &&
            !(decide (0xD800 ≤ (0xE0 + c.toNat / 4096 - 0xE0) * 4096 +
                (0x80 + c.toNat / 64 % 64 - 0x80) * 64 + (0x80 + c.toNat % 64 - 0x80)) &&
              decide ((0xE0 + c.toNat / 4096 - 0xE0) * 4096 +
                (0x80 + c.toNat / 64 % 64 - 0x80) * 64 + (0x80 + c.toNat % 64 - 0x80) ≤
                0xDFFF))) = true := by
          rw [contByte_true (by omega) (by omega), contByte_true (by omega) (by omega),
            decide_eq_true (by omega)]
          rcases hv with hlt | ⟨hgt, _⟩
          · rw [decide_eq_false (by omega)]
            simp
          · rw [show (decide ((0xE0 + c.toNat / 4096 - 0xE0) * 4096 +
                (0x80 + c.toNat / 64 % 64 - 0x80) * 64 + (0x80 + c.toNat % 64 - 0x80) ≤
                0xDFFF)) = false from decide_eq_false (by omega)]
            simp
        rw [decodeTokens_inr_step _ _ _ _
          (decodeTokensStep_three _ _ _ _ (by omega) (by omega) hcond)]
        have harg : (0xE0 + c.toNat / 4096 - 0xE0) * 4096 +
            (0x80 + c.toNat / 64 % 64 - 0x80) * 64 + (0x80 + c.toNat % 64 - 0x80) = c.toNat := by
          omega
        simp only [harg, Char.ofNat_toNat]
      · have e : utf8Bytes c =
            [0xF0 + c.toNat / 262144, 0x80 + c.toNat / 4096 % 64,
             0x80 + c.toNat / 64 % 64, 0x80 + c.toNat % 64] := by
          simp [utf8Bytes, h1, h2, h3]
        rw [e]
        simp only [List.map_cons, List.map_nil, List.cons_append, List.nil_append]
        have hbig : c.toNat < 0x110000 := by rcases hv with h | ⟨_, h⟩ <;> omega
        have hcond : (contByte (0x80 + c.toNat / 4096 % 64) &&
            contByte (0x80 + c.toNat / 64 % 64) && contByte (0x80 + c.toNat % 64) &&
            decide (0x10000 ≤ (0xF0 + c.toNat / 262144 - 0xF0) * 262144 +
              (0x80 + c.toNat / 4096 % 64 - 0x80) * 4096 +
              (0x80 + c.toNat / 64 % 64 - 0x80) * 64 + (0x80 + c.toNat % 64 - 0x80)) &&
            decide ((0xF0 + c.toNat / 262144 - 0xF0) * 262144 +
              (0x80 + c.toNat / 4096 % 64 - 0x80) * 4096 +
              (0x80 + c.toNat / 64 % 64 - 0x80) * 64 + (0x80 + c.toNat % 64 - 0x80) ≤
              0x10FFFF)) = true := by
          rw [contByte_true (by omega) (by omega), contByte_true (by omega) (by omega),
            contByte_true (by omega) (by omega),
            decide_eq_true (by omega), decide_eq_true (by omega)]
          rfl
        rw [decodeTokens_inr_step _ _ _ _
          (decodeTokensStep_four _ _ _ _ _ (by omega) (by omega) hcond)]
        have harg : (0xF0 + c.toNat / 262144 - 0xF0) * 262144 +
            (0x80 + c.toNat / 4096 % 64 - 0x80) * 4096 +
            (0x80 + c.toNat / 64 % 64 - 0x80) * 64 + (0x80 + c.toNat % 64 - 0x80) = c.toNat := by
          omega
        simp only [harg, Char.ofNat_toNat]

theorem hexVal_hexDigitUpper (n : Nat) (h : n < 16) : hexVal (hexDigitUpper n) = some n := by
  interval_cases n <;> decide

theorem utf8Bytes_lt_256 (c : Char) : ∀ b ∈ utf8Bytes c, b < 256 := by
  have hv := char_valid_bounds c
  intro b hb
  simp only [utf8Bytes] at hb
  split_ifs at hb <;> simp_all <;> omega

theorem percentTokens_cons_notpct (c : Char) (t : List Char) (h : c ≠ '%') :
    percentTokens (c :: t) = (percentTokens t).map (fun ts => Sum.inl c :: ts) := by
  rw [percentTokens.eq_def]
  split <;> simp_all

theorem percentTokens_escape (a b2 : Char) (va vb : Nat) (t : List Char)
    (ha : hexVal a = some va) (hb : hexVal b2 = some vb) :
    percentTokens ('%' :: a :: b2 :: t) =
      (percentTokens t).map (fun ts => Sum.inr (16 * va + vb) :: ts) := by
  simp only [percentTokens]
  rw [ha, hb]

theorem percentTokens_bytes (bs : List Nat) (hb : ∀ b ∈ bs, b < 256) (t : List Char) :
    percentTokens ((bs.map percentByte).flatten ++ t) =
      (percentTokens t).map (fun ts => bs.map Sum.inr ++ ts) := by
  induction bs with
  | nil => cases h : percentTokens t <;> simp [h]
  | cons b bs ih =>
      have hb0 : b < 256 := hb b (by simp)
      have hbs : ∀ x ∈ bs, x < 256 := fun x hx => hb x (by simp [hx])
      simp only [List.map_cons, List.flatten_cons, List.append_assoc]
      rw [show percentByte b =
        '%' :: hexDigitUpper (b / 16) :: hexDigitUpper (b % 16) :: [] from rfl]
      simp only [List.cons_append, List.nil_append]
      rw [percentTokens_escape _ _ (b / 16) (b % 16) _
        (hexVal_hexDigitUpper _ (by omega)) (hexVal_hexDigitUpper _ (by omega))]
      rw [ih hbs]
      have hbv : 16 * (b / 16) + b % 16 = b := by omega
      cases h : percentTokens t <;> simp [h, hbv]

theorem percentTokens_encChars (l : List Char) (t : List Char) :
    percentTokens (encodeURIComponentChars l ++ t) =
      (percentTokens t).map (fun ts => encTokens l ++ ts) := by
  induction l with
  | nil => cases h : percentTokens t <;> simp [encodeURIComponentChars, encTokens, h]
  | cons c l ih =>
      by_cases hc : encUnreservedChar c = true
      · have hpc : c ≠ '%' := by
          intro e
          rw [e] at hc
          exact absurd hc (by decide)
        rw [show encodeURIComponentChars (c :: l) = [c] ++ encodeURIComponentChars l from by
          simp [encodeURIComponentChars, hc]]
        simp only [List.cons_append, List.nil_append]
        rw [percentTokens_cons_notpct c _ hpc, ih]
        have he : encTokens (c :: l) = Sum.inl c :: encTokens l := by
          simp [encTokens, hc]
        cases h : percentTokens t <;> simp [h, he]
      · rw [show encodeURIComponentChars (c :: l) =
            ((utf8Bytes c).map percentByte).flatten ++ encodeURIComponentChars l from by
          simp [encodeURIComponentChars, hc]]
        rw [List.append_assoc, percentTokens_bytes _ (utf8Bytes_lt_256 c) _, ih]
        have he : encTokens (c :: l) = (utf8Bytes c).map Sum.inr ++ encTokens l := by
          simp [encTokens, hc]
        cases h : percentTokens t <;> simp [h, he]

theorem decodeTokens_encTokens (l : List Char) (ts : List (Char ⊕ Nat)) :
    decodeTokens (encTokens l ++ ts) = (decodeTokens ts).map (fun cs => l ++ cs) := by
  induction l with
  | nil => cases h : decodeTokens ts <;> simp [encTokens, h]
  | cons c l ih =>
      by_cases hc : encUnreservedChar c = true
      · rw [show encTokens (c :: l) = Sum.inl c :: encTokens l from by simp [encTokens, hc]]
        simp only [List.cons_append]
        rw [decodeTokens_inl, ih]
        cases h : decodeTokens ts <;> simp [h]
      · rw [show encTokens (c :: l) = (utf8Bytes c).map Sum.inr ++ encTokens l from by
          simp [encTokens, hc]]
        rw [List.append_assoc, decodeTokens_bytes, ih]
        cases h : decodeTokens ts <;> simp [h]

theorem decodeURIComponent_enc (s : String) : decodeURIComponent (enc s) = some s := by
  have h1 : percentTokens ((enc s).data) = some (encTokens s.data) := by
    have h := percentTokens_encChars s.data []
    simp only [List.append_nil] at h
    show percentTokens (encodeURIComponentChars s.data) = some (encTokens s.data)
    rw [h]
    simp [show percentTokens ([] : List Char) = some ([] : List (Char ⊕ Nat)) from rfl]
  have h2 : decodeTokens (encTokens s.data) = some s.data := by
    have h := decodeTokens_encTokens s.data []
    simp only [List.append_nil] at h
    rw [h]
    simp [show decodeTokens ([] : List (Char ⊕ Nat)) = some ([] : List Char) from rfl]
  unfold decodeURIComponent
  rw [h1]
  try dsimp only
  rw [h2]

/-! ### Claim C4 -/

/-- C4: round trip without double-encoding: for every href that the
decomposer accepts, each rebuilt link carries the decomposed values
percent-encoded exactly once — decoding any built parameter value once
recovers the decomposed value, and the three links are exactly the fixed
endpoints with `enc` applied once to the decomposed fields; and at the
specification's example the Gmail link contains `su=Hi%20there`, never
the doubly encoded `su=Hi%2520there`, while the rebuilt native link is
byte-identical to the input. -/
theorem c4_roundtrip_single_encoding :
    (∀ (href : String) (r : EmailRequest), parseMailto href = .ok r →
      decodeURIComponent (enc r.toAddr) = some r.toAddr ∧
      decodeURIComponent (enc r.subject) = some r.subject ∧
      decodeURIComponent (enc r.body) = some r.body ∧
      gmailUrl r.toAddr r.subject r.body =
        "https://mail.google.com/mail/?view=cm&fs=1&to=" ++ enc r.toAddr ++
          (if r.subject = "" then "" else "&su=" ++ enc r.subject) ++
          (if r.body = "" then "" else "&body=" ++ enc r.body) ∧
      outlookUrl r.toAddr r.subject r.body =
        "https://outlook.office.com/mail/deeplink/compose?to=" ++ enc r.toAddr ++
          (if r.subject = "" then "" else "&subject=" ++ enc r.subject) ++
          (if r.body = "" then "" else "&body=" ++ enc r.body) ∧
      mailtoUrl r.toAddr r.subject r.body =
        "mailto:" ++ r.toAddr ++
          (if r.subject = "" ∧ r.body = "" then ""
           else if r.body = "" then "?subject=" ++ enc r.subject
           else if r.subject = "" then "?body=" ++ enc r.body
           else "?subject=" ++ enc r.subject ++ "&body=" ++ enc r.body)) ∧
    (parseMailto "mailto:sales@example.com?subject=Hi%20there&body=Hello" =
        .ok ⟨"sales@example.com", "Hi there", "Hello"⟩ ∧
      gmailUrl "sales@example.com" "Hi there" "Hello" =
        "https://mail.google.com/mail/?view=cm&fs=1&to=sales%40example.com&su=Hi%20there&body=Hello" ∧
      outlookUrl "sales@example.com" "Hi there" "Hello" =
        "https://outlook.office.com/mail/deeplink/compose?to=sales%40example.com&subject=Hi%20there&body=Hello" ∧
      mailtoUrl "sales@example.com" "Hi there" "Hello" =
        "mailto:sales@example.com?subject=Hi%20there&body=Hello" ∧
      hasSub "su=Hi%20there".data
        (gmailUrl "sales@example.com" "Hi there" "Hello").data = true ∧
      hasSub "su=Hi%2520there".data
        (gmailUrl "sales@example.com" "Hi there" "Hello").data = false) := by
  constructor
  · intro href r _
    refine ⟨decodeURIComponent_enc _, decodeURIComponent_enc _, decodeURIComponent_enc _,
      ?_, ?_, ?_⟩
    · by_cases hs : r.subject = "" <;> by_cases hb : r.body = "" <;>
        simp [gmailUrl, jsTruthy, hs, hb]
    · by_cases hs : r.subject = "" <;> by_cases hb : r.body = "" <;>
        simp [outlookUrl, jsTruthy, hs, hb]
    · by_cases hs : r.subject = "" <;> by_cases hb : r.body = "" <;>
        · apply str_ext
          simp [mailtoUrl, jsTruthy, hs, hb, data_append, List.append_assoc]
  · exact ⟨rfl, rfl, rfl, rfl, by decide, by decide⟩

theorem c4_witness :
    decodeURIComponent (enc "Hi there") = some "Hi there" :=
  (c4_roundtrip_single_encoding.1 "mailto:sales@example.com?subject=Hi%20there&body=Hello"
    ⟨"sales@example.com", "Hi there", "Hello"⟩ rfl).2.1

end EmailChooser
